import Mathlib

/-!
# Flow layout verification

A shallow embedding of the block-flow layout engine (`flow.rs`): the flow
item model, the `FlowLayouter` state machine and the `FlowNode` entry
point, together with theorems about spacing, fractional distribution,
alignment placement, region finishing and finalization.

The geometry and style primitives (lengths, sizes, alignment, regions,
fractions, style chains, block layout of children) are external
collaborators of the flow source; they are modelled from the spec's
contracts. Machine floats are modelled as rationals extended with a
point at infinity, since region heights may be unbounded.
-/

namespace Flow

/-- Modelled from the spec: an absolute length. Lengths may be infinite
(a region height may be unbounded), so a length is a rational or the
point at infinity. -/
inductive Abs where
  | fin (v : ℚ)
  | inf
deriving DecidableEq, Repr

/-- Addition of lengths; anything involving infinity is infinite. -/
def Abs.add : Abs → Abs → Abs
  | .fin a, .fin b => .fin (a + b)
  | _, _ => .inf

/-- Subtraction of lengths. In the flow code only finite amounts are
ever subtracted, so the `fin - inf` case is unreachable there; it is
given a harmless value to keep the function total. -/
def Abs.sub : Abs → Abs → Abs
  | .fin a, .fin b => .fin (a - b)
  | .inf, _ => .inf
  | .fin _, .inf => .fin 0

/-- Minimum of two lengths; infinity is the largest length. -/
def Abs.min : Abs → Abs → Abs
  | .fin a, .fin b => .fin (Min.min a b)
  | .fin a, .inf => .fin a
  | .inf, b => b

/-- Maximum of two lengths; infinity is the largest length. -/
def Abs.max : Abs → Abs → Abs
  | .fin a, .fin b => .fin (Max.max a b)
  | _, _ => .inf

/-- Half of a length. -/
def Abs.half : Abs → Abs
  | .fin a => .fin (a / 2)
  | .inf => .inf

/-- Whether a length is finite. -/
def Abs.is_finite : Abs → Bool
  | .fin _ => true
  | .inf => false

/-- Boolean comparison of lengths. -/
def Abs.ble : Abs → Abs → Bool
  | .fin a, .fin b => decide (a ≤ b)
  | .inf, .fin _ => false
  | _, .inf => true

instance : LE Abs := ⟨fun a b => a.ble b = true⟩

instance (a b : Abs) : Decidable (a ≤ b) :=
  inferInstanceAs (Decidable (a.ble b = true))

/-- The zero length. -/
def Abs.zero : Abs := .fin 0

/-- An alignment along either axis, in the source's declaration order
(start, center, end of the horizontal then the vertical axis). -/
inductive Align where
  | left
  | center
  | right
  | top
  | horizon
  | bottom
deriving DecidableEq, Repr

/-- Declaration-order index of an alignment, inducing its order. -/
def Align.idx : Align → ℕ
  | .left => 0
  | .center => 1
  | .right => 2
  | .top => 3
  | .horizon => 4
  | .bottom => 5

/-- Modelled from the spec: the maximum of two alignments in declaration
order (used for the running ruler). -/
def Align.max (a b : Align) : Align := if b.idx ≤ a.idx then a else b

/-- Modelled from the spec: map an alignment plus leftover space to a
concrete offset — start of axis gives zero, center half, end all of the
free space. -/
def Align.position (a : Align) (free : Abs) : Abs :=
  match a with
  | .left | .top => .fin 0
  | .center | .horizon => free.half
  | .right | .bottom => free

/-- A pair of values, one per axis. -/
structure Axes (α : Type) where
  x : α
  y : α
deriving DecidableEq, Repr

/-- A size: a width and a height. -/
abbrev Size := Axes Abs

/-- The zero size. -/
def Size.zero : Size := ⟨.fin 0, .fin 0⟩

/-- Modelled from the spec: choose per axis between two sizes according
to the expansion flags. -/
def Axes.select (e : Axes Bool) (a b : Size) : Size :=
  ⟨if e.x then a.x else b.x, if e.y then a.y else b.y⟩

/-- A point: a position on both axes. -/
structure Point where
  x : Abs
  y : Abs
deriving DecidableEq, Repr

/-- The origin. -/
def Point.zero : Point := ⟨.fin 0, .fin 0⟩

/-- Modelled from the spec: the semantic role tag applied to layouted
block frames. -/
inductive Role where
  | GenericBlock
deriving DecidableEq, Repr

/-- Modelled from the spec: a finished frame — a size, an optional role
tag and the positioned sub-frames pushed into it, in push order. -/
inductive Frame where
  | mk (size : Size) (role : Option Role) (children : List (Point × Frame))

/-- The size of a frame. -/
def Frame.size : Frame → Size
  | .mk s _ _ => s

/-- The role of a frame. -/
def Frame.role : Frame → Option Role
  | .mk _ r _ => r

/-- The positioned sub-frames of a frame. -/
def Frame.children : Frame → List (Point × Frame)
  | .mk _ _ c => c

/-- The width of a frame. -/
def Frame.width (f : Frame) : Abs := f.size.x

/-- The height of a frame. -/
def Frame.height (f : Frame) : Abs := f.size.y

/-- A new, empty frame of the given size. -/
def Frame.new (size : Size) : Frame := .mk size none []

/-- Push a sub-frame at a position. -/
def Frame.push_frame (f : Frame) (pos : Point) (child : Frame) : Frame :=
  .mk f.size f.role (f.children ++ [(pos, child)])

/-- Tag a frame with a role. -/
def Frame.apply_role (f : Frame) (r : Role) : Frame :=
  .mk f.size (some r) f.children

/-- Modelled from the spec: the set of regions to lay out into — the
size of the current region, the sizes of subsequent regions, and the
per-axis expansion flags. -/
structure Regions where
  first : Size
  backlog : List Size
  expand : Axes Bool

/-- Modelled from the spec: a region is full when its remaining height
is at most a small epsilon. -/
def Regions.is_full (r : Regions) : Bool := r.first.y.ble (.fin (1 / 1000000))

/-- Modelled from the spec: advance to the next region, consuming one
entry off the backlog; the final region persists when the backlog is
empty. -/
def Regions.next (r : Regions) : Regions :=
  match r.backlog with
  | [] => r
  | s :: rest => { r with first := s, backlog := rest }

/-- Modelled from the spec: a fraction weight. -/
abbrev Fr := ℚ

/-- The underlying number of a fraction. -/
def Fr.get (v : Fr) : ℚ := v

/-- Modelled from the spec: proportional allocation of remaining space,
weight divided by the total times the remaining space; a non-finite
remaining amount (or an undefined ratio, via division by zero) yields
zero extent. -/
def Fr.share (v : Fr) (total : Fr) (remaining : Abs) : Abs :=
  match remaining with
  | .fin r => .fin (v / total * r)
  | .inf => .fin 0

/-- Modelled from the spec: the style context as far as the flow reads
it — the ambient paragraph alignment. -/
structure StyleChain where
  parAlign : Align
deriving DecidableEq, Repr

/-- Modelled from the spec: a relative length, an absolute part plus a
ratio of some reference length. -/
structure Rel where
  abs : ℚ
  rel : ℚ
deriving DecidableEq, Repr

/-- Modelled from the spec: style resolution of relative lengths is an
external service; the modelled relative length is already resolved. -/
def Rel.resolve (v : Rel) (_ : StyleChain) : Rel := v

/-- Modelled from the spec: resolve a relative length against a
reference length — the ratio of the reference plus the absolute part. -/
def Rel.relative_to (v : Rel) (reference : Abs) : Abs :=
  match reference with
  | .fin w => .fin (v.rel * w + v.abs)
  | .inf => if v.rel = 0 then .fin v.abs else .inf

/-- Vertical spacing between children: an absolute-resolvable length or
a fractional weight. -/
inductive Spacing where
  | Relative (v : Rel)
  | Fractional (v : Fr)
deriving DecidableEq, Repr

/-- Modelled from the spec: the opaque diagnostic payload of a failed
block-layout call. -/
structure LayoutError where
  msg : String
deriving DecidableEq, Repr

/-- Modelled from the spec: the capability view of an out-of-flow
placement wrapper. -/
structure PlaceNode where
  is_out_of_flow : Bool
deriving DecidableEq, Repr

/-- Whether the placement is out of flow. -/
def PlaceNode.out_of_flow (p : PlaceNode) : Bool := p.is_out_of_flow

/-- Modelled from the spec: the capability view of an alignment wrapper,
carrying its style-resolved vertical alignment when one is given. -/
structure AlignNode where
  aligns_y : Option Align
deriving DecidableEq, Repr

/-- Modelled from the spec: a block-level content node, opaque to the
flow except for the placement and alignment capability probes and its
block-layout behaviour (a function of the region set and styles). -/
structure Content where
  placeNode : Option PlaceNode
  alignNode : Option AlignNode
  layout_block : Regions → StyleChain → Except LayoutError (List Frame)

/-- A child of a flow node. -/
inductive FlowChild where
  | Spacing (s : Spacing)
  | Node (c : Content)
  | Colbreak

/-- A flow node: its children paired with their chained style contexts
(the style-map chaining itself is external to the flow source). -/
structure FlowNode where
  children : List (FlowChild × StyleChain)

/-- A prepared item in a flow layout. -/
inductive FlowItem where
  | Absolute (v : Abs)
  | Fractional (v : Fr)
  | Frame (frame : Frame) (aligns : Axes Align)
  | Placed (frame : Frame)

/-- The outcome of a fallible flow step: a propagated source error from
a block-layout call, or a crash (where the original code panics). -/
inductive FlowErr where
  | source (e : LayoutError)
  | crashed
deriving DecidableEq, Repr

/-- Performs flow layout. -/
structure FlowLayouter where
  /-- The regions to layout children into. -/
  regions : Regions
  /-- Whether the flow should expand to fill the region. -/
  expand : Axes Bool
  /-- The full size of the first region before subtracting. -/
  full : Size
  /-- The size used by the frames in the current region. -/
  used : Size
  /-- The sum of fractions in the current region. -/
  fr : Fr
  /-- Spacing and layouted nodes. -/
  items : List FlowItem
  /-- Finished frames for previous regions. -/
  finished : List Frame

/-- Create a new flow layouter: keep the caller's expansion flags and
the full first-region size, and disable vertical expansion for the
region set handed to children. -/
def FlowLayouter.new (regions : Regions) : FlowLayouter :=
  let expand := regions.expand
  let full := regions.first
  { regions := { regions with expand := { regions.expand with y := false } }
    expand := expand
    full := full
    used := Size.zero
    fr := 0
    items := []
    finished := [] }

/-- Layout spacing: absolute spacing is resolved against the full
height, limited to the remaining space, consumed, and staged unclamped;
fractional spacing is staged and added to the running fraction sum. -/
def FlowLayouter.layout_spacing (l : FlowLayouter) (spacing : Spacing)
    (styles : StyleChain) : FlowLayouter :=
  match spacing with
  | .Relative v =>
    let resolved := (v.resolve styles).relative_to l.full.y
    let limited := resolved.min l.regions.first.y
    { l with
      regions := { l.regions with
        first := { l.regions.first with y := l.regions.first.y.sub limited } }
      used := { l.used with y := l.used.y.add limited }
      items := l.items ++ [.Absolute resolved] }
  | .Fractional v =>
    { l with items := l.items ++ [.Fractional v], fr := l.fr + v }

/-- Place all staged items of one region (the drain loop of region
finishing), threading the running offset and the ruler. -/
def placeItems (fr : Fr) (remaining : Abs) (size : Size) (usedY : Abs) :
    Abs → Align → List FlowItem → Frame → Frame
  | _, _, [], output => output
  | offset, ruler, .Absolute v :: rest, output =>
      placeItems fr remaining size usedY (offset.add v) ruler rest output
  | offset, ruler, .Fractional v :: rest, output =>
      placeItems fr remaining size usedY (offset.add (Fr.share v fr remaining))
        ruler rest output
  | offset, ruler, .Frame frame aligns :: rest, output =>
      let ruler := ruler.max aligns.y
      let x := aligns.x.position (size.x.sub frame.width)
      let y := offset.add (ruler.position (size.y.sub usedY))
      placeItems fr remaining size usedY (offset.add frame.height) ruler rest
        (output.push_frame ⟨x, y⟩ frame)
  | offset, ruler, .Placed frame :: rest, output =>
      placeItems fr remaining size usedY offset ruler rest
        (output.push_frame Point.zero frame)

/-- Finish the frame for one region: select the output size, force full
consumption when fractions are present in a finite region, place all
staged items, and advance to the next region. -/
def FlowLayouter.finish_region (l : FlowLayouter) : FlowLayouter :=
  let size := l.expand.select l.full l.used
  let remaining := l.full.y.sub l.used.y
  let used :=
    if 0 < Fr.get l.fr ∧ l.full.y.is_finite = true
    then { l.used with y := l.full.y } else l.used
  let size :=
    if 0 < Fr.get l.fr ∧ l.full.y.is_finite = true
    then { size with y := l.full.y } else size
  let output :=
    placeItems l.fr remaining size used.y Abs.zero Align.top l.items
      (Frame.new size)
  { l with
    regions := l.regions.next
    full := (l.regions.next).first
    used := Size.zero
    fr := 0
    items := []
    finished := l.finished ++ [output] }

/-- Stage one laid-out frame: tag it with the generic block role, grow
the used size, shrink the region and save the frame item. -/
def FlowLayouter.stageFrame (l : FlowLayouter) (frame : Frame)
    (aligns : Axes Align) : FlowLayouter :=
  let frame := frame.apply_role .GenericBlock
  let size := frame.size
  { l with
    used := { x := l.used.x.max size.x, y := l.used.y.add size.y }
    regions := { l.regions with
      first := { l.regions.first with y := l.regions.first.y.sub size.y } }
    items := l.items ++ [.Frame frame aligns] }

/-- Stage the frames produced by one node, force-finishing the region
after every frame except the last. -/
def FlowLayouter.stageFrames (l : FlowLayouter) (aligns : Axes Align) :
    List Frame → FlowLayouter
  | [] => l
  | [f] => l.stageFrame f aligns
  | f :: g :: gs =>
      (((l.stageFrame f aligns).finish_region).stageFrames aligns) (g :: gs)

/-- Layout a node: finish a full region first; out-of-flow placements
stage only their first frame as a placed item; other nodes stage every
produced frame with the resolved alignment pair. -/
def FlowLayouter.layout_node (l : FlowLayouter) (node : Content)
    (styles : StyleChain) : Except FlowErr FlowLayouter :=
  let l := if l.regions.is_full then l.finish_region else l
  if (node.placeNode.map PlaceNode.out_of_flow).getD false then
    match node.layout_block l.regions styles with
    | .error e => .error (.source e)
    | .ok [] => .error .crashed
    | .ok (frame :: _) => .ok { l with items := l.items ++ [.Placed frame] }
  else
    let aligns : Axes Align :=
      ⟨styles.parAlign, (node.alignNode.bind AlignNode.aligns_y).getD Align.top⟩
    match node.layout_block l.regions styles with
    | .error e => .error (.source e)
    | .ok frames => .ok (l.stageFrames aligns frames)

/-- Force-finish one region per remaining backlog entry (the while loop
of finalization). -/
def FlowLayouter.finishBacklog (l : FlowLayouter) : FlowLayouter :=
  if h : l.regions.backlog = [] then l
  else FlowLayouter.finishBacklog l.finish_region
termination_by l.regions.backlog.length
decreasing_by
  have hb : (l.finish_region).regions.backlog = l.regions.backlog.tail := by
    show (l.regions.next).backlog = l.regions.backlog.tail
    unfold Regions.next
    cases hx : l.regions.backlog with
    | nil => simp [hx]
    | cons a as => simp
  rw [hb]
  cases hx : l.regions.backlog with
  | nil => exact absurd hx h
  | cons a as => simp [hx]

/-- Finish layouting: with vertical expansion, force-finish all backlog
regions first; then force-finish the current region once more. -/
def FlowLayouter.finish (l : FlowLayouter) : List Frame :=
  let l := if l.expand.y then l.finishBacklog else l
  (l.finish_region).finished

/-- Iterate the children in order, dispatching per child kind and
propagating the first error. -/
def FlowLayouter.layoutChildren (l : FlowLayouter) :
    List (FlowChild × StyleChain) → Except FlowErr FlowLayouter
  | [] => .ok l
  | (child, styles) :: rest =>
    match child with
    | .Spacing k => (l.layout_spacing k styles).layoutChildren rest
    | .Node n =>
      match l.layout_node n styles with
      | .error e => .error e
      | .ok next => next.layoutChildren rest
    | .Colbreak => (l.finish_region).layoutChildren rest

/-- Arrange the flow children into regions and return the finished
frames. -/
def FlowNode.layout (node : FlowNode) (regions : Regions) :
    Except FlowErr (List Frame) :=
  match (FlowLayouter.new regions).layoutChildren node.children with
  | .error e => .error e
  | .ok l => .ok l.finish

/-! ## Helper lemmas -/

/-- One-sided clamping: the limited value never exceeds the bound. -/
theorem abs_min_le_right (a b : Abs) : a.min b ≤ b := by
  cases a with
  | fin x =>
    cases b with
    | fin y =>
      show Abs.ble _ _ = true
      simp [Abs.min, Abs.ble, min_le_right]
    | inf => rfl
  | inf =>
    cases b with
    | fin y =>
      show Abs.ble _ _ = true
      simp [Abs.min, Abs.ble]
    | inf => rfl

/-- Finishing a region appends exactly one frame to the finished list. -/
theorem finish_region_finished_len (l : FlowLayouter) :
    (l.finish_region).finished.length = l.finished.length + 1 := by
  simp [FlowLayouter.finish_region]

/-- Finishing a region pops one backlog entry, when one is present. -/
theorem finish_region_backlog_tail (l : FlowLayouter) :
    (l.finish_region).regions.backlog = l.regions.backlog.tail := by
  show (l.regions.next).backlog = l.regions.backlog.tail
  unfold Regions.next
  cases hx : l.regions.backlog with
  | nil => simp [hx]
  | cons a as => simp

/-- Advancing regions keeps the expansion flags. -/
theorem regions_next_expand (r : Regions) : (r.next).expand = r.expand := by
  unfold Regions.next
  cases r.backlog <;> rfl

/-- Finishing a region advances the region set. -/
theorem finish_region_regions (l : FlowLayouter) :
    (l.finish_region).regions = l.regions.next := rfl

/-- Finishing a region keeps the region expansion flags. -/
theorem finish_region_expand (l : FlowLayouter) :
    (l.finish_region).regions.expand = l.regions.expand := by
  rw [finish_region_regions, regions_next_expand]

/-- Staging a frame leaves the finished list unchanged. -/
theorem stageFrame_finished (l : FlowLayouter) (f : Frame) (a : Axes Align) :
    (l.stageFrame f a).finished = l.finished := rfl

/-- Staging a frame keeps the region expansion flags. -/
theorem stageFrame_expand (l : FlowLayouter) (f : Frame) (a : Axes Align) :
    (l.stageFrame f a).regions.expand = l.regions.expand := rfl

/-- Staging k frames forces exactly k - 1 region finishes. -/
theorem stageFrames_finished_len :
    ∀ (fs : List Frame) (l : FlowLayouter) (a : Axes Align), fs ≠ [] →
      (l.stageFrames a fs).finished.length = l.finished.length + (fs.length - 1)
  | [], _, _, h => absurd rfl h
  | [f], l, a, _ => by
      simp [FlowLayouter.stageFrames, stageFrame_finished]
  | f :: g :: gs, l, a, _ => by
      have ih := stageFrames_finished_len (g :: gs)
        ((l.stageFrame f a).finish_region) a (by simp)
      simp only [FlowLayouter.stageFrames] at ih ⊢
      rw [ih, finish_region_finished_len, stageFrame_finished]
      simp
      omega

/-- Staging frames keeps the region expansion flags. -/
theorem stageFrames_expand :
    ∀ (fs : List Frame) (l : FlowLayouter) (a : Axes Align),
      (l.stageFrames a fs).regions.expand = l.regions.expand
  | [], _, _ => rfl
  | [f], l, a => rfl
  | f :: g :: gs, l, a => by
      have ih := stageFrames_expand (g :: gs) ((l.stageFrame f a).finish_region) a
      simp only [FlowLayouter.stageFrames] at ih ⊢
      rw [ih, finish_region_expand, stageFrame_expand]

/-- Placing items never changes the output frame's size. -/
theorem placeItems_size :
    ∀ (items : List FlowItem) (fr : Fr) (remaining : Abs) (size : Size)
      (usedY offset : Abs) (ruler : Align) (out : Frame),
      (placeItems fr remaining size usedY offset ruler items out).size = out.size
  | [], _, _, _, _, _, _, _ => rfl
  | .Absolute v :: rest, fr, rem, size, uy, off, ru, out =>
      placeItems_size rest fr rem size uy (off.add v) ru out
  | .Fractional v :: rest, fr, rem, size, uy, off, ru, out =>
      placeItems_size rest fr rem size uy (off.add (Fr.share v fr rem)) ru out
  | .Frame frame aligns :: rest, fr, rem, size, uy, off, ru, out => by
      simp only [placeItems]
      rw [placeItems_size rest]
      rfl
  | .Placed frame :: rest, fr, rem, size, uy, off, ru, out => by
      simp only [placeItems]
      rw [placeItems_size rest]
      rfl

/-- A successful node layout keeps the region expansion flags. -/
theorem layout_node_expand (l : FlowLayouter) (node : Content)
    (styles : StyleChain) (l2 : FlowLayouter)
    (h : l.layout_node node styles = .ok l2) :
    l2.regions.expand = l.regions.expand := by
  unfold FlowLayouter.layout_node at h
  have hexp : (if l.regions.is_full then l.finish_region else l).regions.expand
      = l.regions.expand := by
    split
    · rw [finish_region_expand]
    · rfl
  rw [← hexp]
  set l1 := if l.regions.is_full then l.finish_region else l with hl1
  clear_value l1
  dsimp only at h
  split at h
  · split at h
    · exact absurd h (by simp)
    · exact absurd h (by simp)
    · injection h with h2
      rw [← h2]
  · split at h
    · exact absurd h (by simp)
    · injection h with h2
      rw [← h2]
      exact stageFrames_expand _ _ _

/-- The while loop of finalization finishes one region per backlog
entry. -/
theorem finishBacklog_finished_len (l : FlowLayouter) :
    (l.finishBacklog).finished.length
      = l.finished.length + l.regions.backlog.length := by
  generalize hn : l.regions.backlog.length = n
  induction n generalizing l with
  | zero =>
      have hb : l.regions.backlog = [] := List.length_eq_zero.mp hn
      rw [FlowLayouter.finishBacklog, dif_pos hb]
      simp [hn]
  | succ k ih =>
      have hb : l.regions.backlog ≠ [] := by
        intro hh
        rw [hh] at hn
        simp at hn
      have hlen : (l.finish_region).regions.backlog.length = k := by
        rw [finish_region_backlog_tail, List.length_tail, hn]
        omega
      rw [FlowLayouter.finishBacklog, dif_neg hb, ih _ hlen,
        finish_region_finished_len]
      omega

/-- Children containing no content node always lay out without error. -/
theorem layoutChildren_no_node_ok :
    ∀ (cs : List (FlowChild × StyleChain)) (l : FlowLayouter),
      (cs.all fun p => match p.1 with | .Node _ => false | _ => true) = true →
      (l.layoutChildren cs).isOk = true
  | [], _, _ => rfl
  | (c, s) :: rest, l, h => by
      cases c with
      | Spacing k =>
          exact layoutChildren_no_node_ok rest (l.layout_spacing k s)
            (by simpa using h)
      | Node n => simp [List.all_cons] at h
      | Colbreak =>
          exact layoutChildren_no_node_ok rest l.finish_region
            (by simpa using h)

/-- Finishing a region never loses offered regions: the finished count
plus the remaining backlog never decreases. -/
theorem finish_region_fb (l : FlowLayouter) :
    l.finished.length + l.regions.backlog.length
      ≤ (l.finish_region).finished.length
        + (l.finish_region).regions.backlog.length := by
  rw [finish_region_finished_len, finish_region_backlog_tail,
    List.length_tail]
  omega

/-- Staging frames never decreases finished count plus backlog. -/
theorem stageFrames_fb :
    ∀ (fs : List Frame) (l : FlowLayouter) (a : Axes Align),
      l.finished.length + l.regions.backlog.length
        ≤ (l.stageFrames a fs).finished.length
          + (l.stageFrames a fs).regions.backlog.length
  | [], _, _ => le_refl _
  | [_], _, _ => le_refl _
  | f :: g :: gs, l, a => by
      have h1 := finish_region_fb (l.stageFrame f a)
      have ih := stageFrames_fb (g :: gs) ((l.stageFrame f a).finish_region) a
      simp only [FlowLayouter.stageFrames]
      exact le_trans h1 ih

/-- Laying out spacing changes neither the finished list nor the
backlog. -/
theorem layout_spacing_fb (l : FlowLayouter) (k : Spacing) (s : StyleChain) :
    (l.layout_spacing k s).finished = l.finished
    ∧ (l.layout_spacing k s).regions.backlog = l.regions.backlog := by
  cases k <;> exact ⟨rfl, rfl⟩

/-- A successful node layout never decreases finished count plus
backlog. -/
theorem layout_node_fb (l : FlowLayouter) (node : Content)
    (styles : StyleChain) (l2 : FlowLayouter)
    (h : l.layout_node node styles = .ok l2) :
    l.finished.length + l.regions.backlog.length
      ≤ l2.finished.length + l2.regions.backlog.length := by
  unfold FlowLayouter.layout_node at h
  have hbase : l.finished.length + l.regions.backlog.length
      ≤ (if l.regions.is_full then l.finish_region else l).finished.length
        + (if l.regions.is_full then l.finish_region
            else l).regions.backlog.length := by
    split
    · exact finish_region_fb l
    · exact le_refl _
  refine le_trans hbase ?_
  set l1 := if l.regions.is_full then l.finish_region else l with hl1
  clear_value l1
  dsimp only at h
  split at h
  · split at h
    · exact absurd h (by simp)
    · exact absurd h (by simp)
    · injection h with h2
      rw [← h2]
  · split at h
    · exact absurd h (by simp)
    · injection h with h2
      rw [← h2]
      exact stageFrames_fb _ _ _

/-- Processing a children list never decreases finished count plus
backlog. -/
theorem layoutChildren_fb :
    ∀ (cls : List (FlowChild × StyleChain)) (l lfin : FlowLayouter),
      l.layoutChildren cls = .ok lfin →
      l.finished.length + l.regions.backlog.length
        ≤ lfin.finished.length + lfin.regions.backlog.length
  | [], l, lfin, h => by
      injection h with h2
      rw [h2]
  | (c, s) :: rest, l, lfin, h => by
      cases c with
      | Spacing k =>
          have ih := layoutChildren_fb rest (l.layout_spacing k s) lfin h
          calc l.finished.length + l.regions.backlog.length
              = (l.layout_spacing k s).finished.length
                + (l.layout_spacing k s).regions.backlog.length := by
                  rw [(layout_spacing_fb l k s).1, (layout_spacing_fb l k s).2]
            _ ≤ _ := ih
      | Node n =>
          simp only [FlowLayouter.layoutChildren] at h
          cases hn : l.layout_node n s with
          | error e =>
              rw [hn] at h
              exact Except.noConfusion h
          | ok l2 =>
              rw [hn] at h
              exact le_trans (layout_node_fb l n s l2 hn)
                (layoutChildren_fb rest l2 lfin h)
      | Colbreak =>
          have ih := layoutChildren_fb rest l.finish_region lfin h
          exact le_trans (finish_region_fb l) ih

/-! ## Claim theorems -/

/-- C1, counterexample: the claim says the clamped spacing amount is
never negative, but a negative resolved spacing is only limited from
above by the remaining height: spacing of absolute part -5 in a fresh
100 by 100 region adds -5 to the used height. -/
theorem c1_counterexample :
    ((FlowLayouter.new ⟨⟨.fin 100, .fin 100⟩, [], ⟨true, true⟩⟩).layout_spacing
        (.Relative ⟨-5, 0⟩) ⟨.left⟩).used.y = .fin (-5) ∧ (-5 : ℚ) < 0 := by
  constructor
  · simp only [FlowLayouter.layout_spacing, FlowLayouter.new, Rel.resolve,
      Rel.relative_to, Abs.min, Abs.add, Size.zero]
    norm_num [min_def]
  · norm_num

/-- C1, amended: for every absolute spacing child, layout_spacing
resolves the spacing against the full height of the region, limits the
resolved value to at most the remaining height of the current region (a
one-sided clamp that never exceeds the remaining height but keeps
negative values), subtracts the limited amount from the remaining
region height, adds the limited amount to the used height, and stages
an Absolute item holding the unclamped resolved value. -/
theorem c1_spacing_clamp (l : FlowLayouter) (v : Rel) (styles : StyleChain) :
    ((l.layout_spacing (.Relative v) styles).used.y
        = l.used.y.add (((v.resolve styles).relative_to l.full.y).min
            l.regions.first.y))
    ∧ ((l.layout_spacing (.Relative v) styles).regions.first.y
        = l.regions.first.y.sub (((v.resolve styles).relative_to l.full.y).min
            l.regions.first.y))
    ∧ (((v.resolve styles).relative_to l.full.y).min l.regions.first.y
        ≤ l.regions.first.y)
    ∧ ((l.layout_spacing (.Relative v) styles).items
        = l.items ++ [.Absolute ((v.resolve styles).relative_to l.full.y)])
    ∧ ((l.layout_spacing (.Relative v) styles).fr = l.fr) :=
  ⟨rfl, rfl, abs_min_le_right _ _, rfl, rfl⟩

/-- C2: when the running fractional total is positive and the full
region height is finite, the output frame of the finished region has
exactly the full region height; and in a region of infinite height
every fractional item's share of the remaining space is zero. -/
theorem c2_fractional_forcing (l : FlowLayouter) (hfr : 0 < Fr.get l.fr) :
    (∀ H : ℚ, l.full.y = .fin H →
      ∃ out, (l.finish_region).finished = l.finished ++ [out]
        ∧ out.size.y = .fin H)
    ∧ (l.full.y = .inf → ∀ v : Fr,
        Fr.share v l.fr (l.full.y.sub l.used.y) = .fin 0) := by
  constructor
  · intro H hH
    refine ⟨_, rfl, ?_⟩
    rw [placeItems_size]
    show (if 0 < Fr.get l.fr ∧ l.full.y.is_finite = true
        then { Axes.select l.expand l.full l.used with y := l.full.y }
        else Axes.select l.expand l.full l.used).y = .fin H
    rw [if_pos ⟨hfr, by rw [hH]; rfl⟩]
    exact hH
  · intro hinf v
    rw [hinf]
    cases l.used.y <;> rfl

/-- C2, witness: a layouter with fractional total 1 over a finite
region of height 200 finishes into a frame of height exactly 200. -/
theorem c2_fractional_forcing_witness :
    ∃ out,
      (FlowLayouter.finish_region
          ⟨⟨⟨.fin 100, .fin 200⟩, [], ⟨false, false⟩⟩, ⟨false, false⟩,
            ⟨.fin 100, .fin 200⟩, Size.zero, 1, [.Fractional 1], []⟩).finished
        = [] ++ [out] ∧ out.size.y = .fin 200 :=
  (c2_fractional_forcing
      ⟨⟨⟨.fin 100, .fin 200⟩, [], ⟨false, false⟩⟩, ⟨false, false⟩,
        ⟨.fin 100, .fin 200⟩, Size.zero, 1, [.Fractional 1], []⟩
      (by norm_num [Fr.get])).1 200 rfl

/-- C3: a fractional item advances the offset by its proportional share
weight / total x remaining; with the remaining space computed from full
height minus used height before any fractional forcing; two equal
weights each take half, and two weights split in their ratio. -/
theorem c3_fractional_share (l : FlowLayouter) (w H r w1 w2 f : ℚ)
    (hw : 0 < w) :
    (∀ (fr2 : Fr) (remaining : Abs) (size : Size) (usedY offset : Abs)
        (ruler : Align) (v : Fr) (rest : List FlowItem) (out : Frame),
      placeItems fr2 remaining size usedY offset ruler
          (.Fractional v :: rest) out
        = placeItems fr2 remaining size usedY
            (offset.add (Fr.share v fr2 remaining)) ruler rest out)
    ∧ Fr.share w f (.fin r) = .fin (w / f * r)
    ∧ Fr.share w (w + w) (.fin H) = .fin (H / 2)
    ∧ (∃ q1 q2, Fr.share w1 f (.fin r) = .fin q1
        ∧ Fr.share w2 f (.fin r) = .fin q2 ∧ q1 * w2 = q2 * w1)
    ∧ (∃ sz uy, (l.finish_region).finished
        = l.finished ++ [placeItems l.fr (l.full.y.sub l.used.y) sz uy
            Abs.zero Align.top l.items (Frame.new sz)]) := by
  refine ⟨fun _ _ _ _ _ _ _ _ _ => rfl, rfl, ?_,
    ⟨_, _, rfl, rfl, by ring⟩, ⟨_, _, rfl⟩⟩
  show Abs.fin (w / (w + w) * H) = .fin (H / 2)
  have hw0 : w ≠ 0 := ne_of_gt hw
  have hww : w + w ≠ 0 := by
    intro hc
    apply hw0
    linarith
  congr 1
  field_simp [hww]
  ring

/-- C3, witness: with two equal weights of 1 over remaining height 100,
each fractional spacer receives half the space. -/
theorem c3_fractional_share_witness :
    Fr.share 1 (1 + 1) (.fin 100) = .fin (100 / 2) :=
  (c3_fractional_share
      ⟨⟨⟨.fin 0, .fin 0⟩, [], ⟨false, false⟩⟩, ⟨false, false⟩,
        ⟨.fin 0, .fin 0⟩, Size.zero, 0, [], []⟩
      1 100 0 0 0 0 (by norm_num)).2.2.1

/-- C4: a frame item first raises the ruler to the maximum of itself
and the frame's vertical alignment, places the frame at its own
horizontal alignment applied to the leftover width and vertically at
offset plus the ruler's position in the leftover height, then advances
the offset by the frame height; concretely, a top-aligned frame
following a bottom-aligned one is still placed with the bottom ruler
(offset 10), not with its own alignment (offset 0). -/
theorem c4_frame_ruler :
    (∀ (fr : Fr) (remaining : Abs) (size : Size) (usedY offset : Abs)
        (ruler : Align) (frame : Frame) (aligns : Axes Align)
        (rest : List FlowItem) (out : Frame),
      placeItems fr remaining size usedY offset ruler
          (.Frame frame aligns :: rest) out
        = placeItems fr remaining size usedY (offset.add frame.height)
            (ruler.max aligns.y) rest
            (out.push_frame
              ⟨aligns.x.position (size.x.sub frame.width),
               offset.add ((ruler.max aligns.y).position (size.y.sub usedY))⟩
              frame))
    ∧ (placeItems 0 (.fin 0) ⟨.fin 100, .fin 100⟩ (.fin 90) Abs.zero Align.top
          [.Frame (.mk ⟨.fin 20, .fin 0⟩ none []) ⟨.left, .bottom⟩,
           .Frame (.mk ⟨.fin 30, .fin 0⟩ none []) ⟨.left, .top⟩]
          (Frame.new ⟨.fin 100, .fin 100⟩)).children
        = [(⟨.fin 0, .fin 10⟩, .mk ⟨.fin 20, .fin 0⟩ none []),
           (⟨.fin 0, .fin 10⟩, .mk ⟨.fin 30, .fin 0⟩ none [])]
    ∧ Align.top.position (.fin 10) = .fin 0
    ∧ decide (Abs.fin 10 = Abs.fin 0) = false
    ∧ (∀ (l : FlowLayouter), ∃ sz uy,
        (l.finish_region).finished
          = l.finished ++ [placeItems l.fr (l.full.y.sub l.used.y) sz uy
              Abs.zero Align.top l.items (Frame.new sz)]) := by
  refine ⟨fun _ _ _ _ _ _ _ _ _ _ => rfl, ?_, rfl, by decide,
    fun l => ⟨_, _, rfl⟩⟩
  simp only [placeItems, Frame.new, Frame.push_frame, Frame.children,
    Frame.height, Frame.width, Frame.size, Align.max, Align.idx,
    Align.position, Abs.sub, Abs.add, Abs.half, Abs.zero, Point.zero]
  norm_num

/-- C5: an in-flow content node whose block layout yields frames stages
every frame (growing used height by the frame height, used width to the
max, shrinking the remaining height, appending a Frame item) and forces
a region finish after every frame except the last; so k frames cause
exactly k - 1 forced region finishes and the last frame does not close
its region. -/
theorem c5_multiframe (l : FlowLayouter) (node : Content) (styles : StyleChain)
    (fs : List Frame)
    (hplace : (node.placeNode.map PlaceNode.out_of_flow).getD false = false)
    (hfull : l.regions.is_full = false)
    (hblock : node.layout_block l.regions styles = .ok fs)
    (hne : fs ≠ []) :
    (l.layout_node node styles = .ok (l.stageFrames
        ⟨styles.parAlign,
          (node.alignNode.bind AlignNode.aligns_y).getD Align.top⟩ fs))
    ∧ ((l.stageFrames
          ⟨styles.parAlign,
            (node.alignNode.bind AlignNode.aligns_y).getD Align.top⟩
          fs).finished.length
        = l.finished.length + (fs.length - 1))
    ∧ (∀ (m : FlowLayouter) (a : Axes Align) (f g : Frame) (gs : List Frame),
        m.stageFrames a (f :: g :: gs)
          = ((m.stageFrame f a).finish_region).stageFrames a (g :: gs))
    ∧ (∀ (m : FlowLayouter) (a : Axes Align) (f : Frame),
        m.stageFrames a [f] = m.stageFrame f a)
    ∧ (∀ (m : FlowLayouter) (a : Axes Align) (f : Frame),
        (m.stageFrame f a).used.y = m.used.y.add f.height
        ∧ (m.stageFrame f a).used.x = m.used.x.max f.width
        ∧ (m.stageFrame f a).regions.first.y = m.regions.first.y.sub f.height
        ∧ (m.stageFrame f a).items
            = m.items ++ [.Frame (f.apply_role .GenericBlock) a]
        ∧ (m.stageFrame f a).finished = m.finished) := by
  refine ⟨?_, stageFrames_finished_len fs l _ hne,
    fun _ _ _ _ _ => rfl, fun _ _ _ => rfl,
    fun _ _ _ => ⟨rfl, rfl, rfl, rfl, rfl⟩⟩
  unfold FlowLayouter.layout_node
  simp only [hfull, Bool.false_eq_true, if_false, hplace, hblock]

/-- C5, witness: a node yielding two frames in a fresh two-region set is
staged through stageFrames. -/
theorem c5_multiframe_witness :
    (FlowLayouter.new
          ⟨⟨.fin 100, .fin 100⟩, [⟨.fin 100, .fin 50⟩], ⟨false, false⟩⟩).layout_node
        ⟨none, none, fun _ _ =>
          .ok [.mk ⟨.fin 40, .fin 30⟩ none [], .mk ⟨.fin 40, .fin 20⟩ none []]⟩
        ⟨.left⟩
      = .ok ((FlowLayouter.new
            ⟨⟨.fin 100, .fin 100⟩, [⟨.fin 100, .fin 50⟩], ⟨false, false⟩⟩).stageFrames
          ⟨Align.left, Align.top⟩
          [.mk ⟨.fin 40, .fin 30⟩ none [], .mk ⟨.fin 40, .fin 20⟩ none []]) := by
  have hfull : (FlowLayouter.new
      ⟨⟨.fin 100, .fin 100⟩, [⟨.fin 100, .fin 50⟩], ⟨false, false⟩⟩).regions.is_full
      = false := by
    simp [FlowLayouter.new, Regions.is_full, Abs.ble]
    norm_num
  exact (c5_multiframe
    (FlowLayouter.new ⟨⟨.fin 100, .fin 100⟩, [⟨.fin 100, .fin 50⟩], ⟨false, false⟩⟩)
    ⟨none, none, fun _ _ =>
      .ok [.mk ⟨.fin 40, .fin 30⟩ none [], .mk ⟨.fin 40, .fin 20⟩ none []]⟩
    ⟨.left⟩
    [.mk ⟨.fin 40, .fin 30⟩ none [], .mk ⟨.fin 40, .fin 20⟩ none []]
    rfl hfull rfl (List.cons_ne_nil _ _)).1

/-- C6: with vertical expansion on, finalization force-finishes one
region per remaining backlog entry and then the current region once
more, so the finished list grows by backlog length plus one; when
nothing was finished before, the output has exactly one frame per
offered region. -/
theorem c6_finish_backlog (l : FlowLayouter) (hy : l.expand.y = true) :
    ((l.finish).length = l.finished.length + l.regions.backlog.length + 1)
    ∧ (l.finished = [] → (l.finish).length = l.regions.backlog.length + 1)
    ∧ (∀ (r : Regions) (cls : List (FlowChild × StyleChain))
        (lfin : FlowLayouter),
      (FlowLayouter.new r).layoutChildren cls = .ok lfin →
      lfin.expand.y = true →
      r.backlog.length + 1 ≤ (lfin.finish).length) := by
  have key : ∀ (m : FlowLayouter), m.expand.y = true → (m.finish).length
      = m.finished.length + m.regions.backlog.length + 1 := by
    intro m hm
    unfold FlowLayouter.finish
    rw [if_pos hm, finish_region_finished_len, finishBacklog_finished_len]
  refine ⟨key l hy, fun h0 => ?_, fun r cls lfin hok hey => ?_⟩
  · rw [key l hy, h0]
    simp
  · have hinv := layoutChildren_fb cls (FlowLayouter.new r) lfin hok
    have hinv2 : r.backlog.length
        ≤ lfin.finished.length + lfin.regions.backlog.length := by
      simpa [FlowLayouter.new] using hinv
    rw [key lfin hey]
    omega

/-- C6, witness: an empty vertically-expanding layouter with a backlog
of two regions finishes into exactly three frames. -/
theorem c6_finish_backlog_witness :
    (FlowLayouter.finish
        ⟨⟨⟨.fin 100, .fin 100⟩, [⟨.fin 100, .fin 50⟩, ⟨.fin 100, .fin 60⟩],
            ⟨true, false⟩⟩,
          ⟨true, true⟩, ⟨.fin 100, .fin 100⟩, Size.zero, 0, [], []⟩).length
      = 3 := by
  have h := (c6_finish_backlog
      ⟨⟨⟨.fin 100, .fin 100⟩, [⟨.fin 100, .fin 50⟩, ⟨.fin 100, .fin 60⟩],
          ⟨true, false⟩⟩,
        ⟨true, true⟩, ⟨.fin 100, .fin 100⟩, Size.zero, 0, [], []⟩ rfl).2.1 rfl
  simpa using h

/-- C7: an out-of-flow placed node stages only the first frame of its
block layout as a Placed item and changes nothing else of the layouter
state (used size, fraction sum, regions, finished frames); at region
finishing a Placed item is pushed at the region origin, ignoring
offset, ruler and alignment. -/
theorem c7_out_of_flow (l : FlowLayouter) (node : Content)
    (styles : StyleChain) (f : Frame) (rest : List Frame)
    (hfull : l.regions.is_full = false)
    (hplace : (node.placeNode.map PlaceNode.out_of_flow).getD false = true)
    (hblock : node.layout_block l.regions styles = .ok (f :: rest)) :
    (l.layout_node node styles
        = .ok { l with items := l.items ++ [.Placed f] })
    ∧ (∀ (fr : Fr) (remaining : Abs) (size : Size) (usedY offset : Abs)
        (ruler : Align) (rest2 : List FlowItem) (out : Frame),
      placeItems fr remaining size usedY offset ruler (.Placed f :: rest2) out
        = placeItems fr remaining size usedY offset ruler rest2
            (out.push_frame Point.zero f)) := by
  refine ⟨?_, fun _ _ _ _ _ _ _ _ => rfl⟩
  unfold FlowLayouter.layout_node
  simp only [hfull, Bool.false_eq_true, if_false, hplace, if_true, hblock]

/-- C7, witness: a concrete out-of-flow placement in a fresh region
stages exactly one Placed item. -/
theorem c7_out_of_flow_witness :
    (FlowLayouter.new ⟨⟨.fin 100, .fin 100⟩, [], ⟨false, false⟩⟩).layout_node
        ⟨some ⟨true⟩, none, fun _ _ => .ok [.mk ⟨.fin 10, .fin 10⟩ none []]⟩
        ⟨.left⟩
      = .ok { FlowLayouter.new ⟨⟨.fin 100, .fin 100⟩, [], ⟨false, false⟩⟩ with
          items := (FlowLayouter.new
              ⟨⟨.fin 100, .fin 100⟩, [], ⟨false, false⟩⟩).items
            ++ [.Placed (.mk ⟨.fin 10, .fin 10⟩ none [])] } := by
  have hfull : (FlowLayouter.new
      ⟨⟨.fin 100, .fin 100⟩, [], ⟨false, false⟩⟩).regions.is_full = false := by
    simp [FlowLayouter.new, Regions.is_full, Abs.ble]
    norm_num
  exact (c7_out_of_flow
    (FlowLayouter.new ⟨⟨.fin 100, .fin 100⟩, [], ⟨false, false⟩⟩)
    ⟨some ⟨true⟩, none, fun _ _ => .ok [.mk ⟨.fin 10, .fin 10⟩ none []]⟩
    ⟨.left⟩ (.mk ⟨.fin 10, .fin 10⟩ none []) [] hfull rfl rfl).1

/-- C8: a block-layout error on a content child makes layout_node fail
with that same error wrapped as a source error, the child scan aborts
with it, and any children list without content nodes (spacing and
column breaks only, hence spacing dispatch, region finishing and
finalization) lays out without error. -/
theorem c8_error_propagation (l : FlowLayouter) (node : Content)
    (styles : StyleChain) (e : LayoutError)
    (rest cs : List (FlowChild × StyleChain))
    (hfull : l.regions.is_full = false)
    (hblock : node.layout_block l.regions styles = .error e)
    (hcs : (cs.all fun p =>
        match p.1 with | .Node _ => false | _ => true) = true) :
    (l.layout_node node styles = .error (.source e))
    ∧ (l.layoutChildren ((.Node node, styles) :: rest) = .error (.source e))
    ∧ ((l.layoutChildren cs).isOk = true) := by
  have h1 : l.layout_node node styles = .error (.source e) := by
    unfold FlowLayouter.layout_node
    cases hp : (node.placeNode.map PlaceNode.out_of_flow).getD false <;>
      simp [hfull, hp, hblock]
  refine ⟨h1, ?_, layoutChildren_no_node_ok cs l hcs⟩
  simp only [FlowLayouter.layoutChildren, h1]

/-- C8, witness: a child whose block layout fails with a concrete
diagnostic aborts the scan with that same error. -/
theorem c8_error_propagation_witness :
    (FlowLayouter.new ⟨⟨.fin 100, .fin 100⟩, [], ⟨false, false⟩⟩).layoutChildren
        [(.Node ⟨none, none, fun _ _ => .error ⟨"boom"⟩⟩, ⟨.left⟩),
         (.Colbreak, ⟨.left⟩)]
      = .error (.source ⟨"boom"⟩) := by
  have hfull : (FlowLayouter.new
      ⟨⟨.fin 100, .fin 100⟩, [], ⟨false, false⟩⟩).regions.is_full = false := by
    simp [FlowLayouter.new, Regions.is_full, Abs.ble]
    norm_num
  exact (c8_error_propagation _ _ _ _ [(.Colbreak, ⟨.left⟩)]
      [(.Colbreak, ⟨.left⟩)] hfull rfl rfl).2.1

/-- C9: construction stores the caller's expansion flags and the full
first-region size but hands children a region set with vertical
expansion disabled, and no layouter operation (spacing layout, region
finishing, node layout) ever changes the region set's expansion flags,
so every recursive block-layout call sees a region set that never
expands vertically. -/
theorem c9_child_regions_no_vexpand (r : Regions) (l : FlowLayouter)
    (node : Content) (styles : StyleChain) (k : Spacing) (l2 : FlowLayouter)
    (hok : l.layout_node node styles = .ok l2) :
    ((FlowLayouter.new r).regions.expand = ⟨r.expand.x, false⟩)
    ∧ ((FlowLayouter.new r).expand = r.expand)
    ∧ ((FlowLayouter.new r).full = r.first)
    ∧ ((l.layout_spacing k styles).regions.expand = l.regions.expand)
    ∧ ((l.finish_region).regions.expand = l.regions.expand)
    ∧ (l2.regions.expand = l.regions.expand) := by
  refine ⟨rfl, rfl, rfl, ?_, finish_region_expand l,
    layout_node_expand l node styles l2 hok⟩
  cases k <;> rfl

/-- C9, witness: a region set expanding on both axes is stored with
vertical expansion turned off for children. -/
theorem c9_child_regions_no_vexpand_witness :
    (FlowLayouter.new ⟨⟨.fin 100, .fin 100⟩, [], ⟨true, true⟩⟩).regions.expand
      = ⟨true, false⟩ := by
  have hfull : (FlowLayouter.new
      ⟨⟨.fin 100, .fin 100⟩, [], ⟨true, true⟩⟩).regions.is_full = false := by
    simp [FlowLayouter.new, Regions.is_full, Abs.ble]
    norm_num
  have hok : (FlowLayouter.new
        ⟨⟨.fin 100, .fin 100⟩, [], ⟨true, true⟩⟩).layout_node
        ⟨none, none, fun _ _ => .ok []⟩ ⟨.left⟩
      = .ok (FlowLayouter.new ⟨⟨.fin 100, .fin 100⟩, [], ⟨true, true⟩⟩) := by
    unfold FlowLayouter.layout_node
    simp [hfull, FlowLayouter.stageFrames]
  exact (c9_child_regions_no_vexpand _ _ _ _ (.Fractional 1) _ hok).1

/-- C10: an out-of-flow placed node whose block layout returns zero
frames makes layout_node crash (the original code panics removing the
first element of an empty vector) rather than return a source error. -/
theorem c10_empty_place_crash (l : FlowLayouter) (node : Content)
    (styles : StyleChain)
    (hfull : l.regions.is_full = false)
    (hplace : (node.placeNode.map PlaceNode.out_of_flow).getD false = true)
    (hblock : node.layout_block l.regions styles = .ok []) :
    (l.layout_node node styles = .error .crashed)
    ∧ (∀ e : LayoutError, FlowErr.crashed ≠ FlowErr.source e) := by
  refine ⟨?_, fun e h => FlowErr.noConfusion h⟩
  unfold FlowLayouter.layout_node
  simp only [hfull, Bool.false_eq_true, if_false, hplace, if_true, hblock]

/-- C10, witness: a concrete out-of-flow placement producing no frames
crashes the layouter. -/
theorem c10_empty_place_crash_witness :
    (FlowLayouter.new ⟨⟨.fin 100, .fin 100⟩, [], ⟨false, false⟩⟩).layout_node
        ⟨some ⟨true⟩, none, fun _ _ => .ok []⟩ ⟨.left⟩
      = .error .crashed := by
  have hfull : (FlowLayouter.new
      ⟨⟨.fin 100, .fin 100⟩, [], ⟨false, false⟩⟩).regions.is_full = false := by
    simp [FlowLayouter.new, Regions.is_full, Abs.ble]
    norm_num
  exact (c10_empty_place_crash
    (FlowLayouter.new ⟨⟨.fin 100, .fin 100⟩, [], ⟨false, false⟩⟩)
    ⟨some ⟨true⟩, none, fun _ _ => .ok []⟩ ⟨.left⟩ hfull rfl rfl).1

end Flow
